import Mathlib

/-!
Shallow embedding of the AStream DASH client core (Netflix buffer-based ABR,
scheduler pacing and admission, PEP CONNECT handling), translated from
`dist/client/adaptation/netflix_dash.py`, `dist/client/dash_client.py` and
`dist/proxy/proxy.py`.

Python floats are modelled as rationals (`ℚ`), Python ints as `ℤ`; fallible
code (uncaught exceptions) returns `Option`.  The configuration module
`config_dash.py` is not part of the sources; functions therefore take the
`NETFLIX_*` constants as explicit parameters, and the default values stated in
the specification are provided as named constants below.
-/

namespace AStream

/-- Modelled from the spec: `config_dash.py` is missing from the sources;
§4.1 gives the default `NETFLIX_RESERVOIR = 0.375`. -/
def NETFLIX_RESERVOIR : ℚ := 375/1000

/-- Modelled from the spec: `config_dash.py` is missing from the sources;
§4.1 gives the default `NETFLIX_CUSHION = 0.9`. -/
def NETFLIX_CUSHION : ℚ := 9/10

/-- Modelled from the spec: `config_dash.py` is missing from the sources;
scenario S5 gives `NETFLIX_BUFFER_SIZE = 10`. -/
def NETFLIX_BUFFER_SIZE : ℤ := 10

/-- Discrete Netflix ABR state: the strings `"INITIAL"` / `"RUNNING"` in
`netflix_dash.py`; a falsy value (`None` or `""`) is modelled as `none` of
`Option NState`. -/
inductive NState where
  | INITIAL : NState
  | RUNNING : NState
deriving DecidableEq, Repr

/-- One `OrderedDict[float, int]` assignment `d[k] = v`: if the key is
present its value is updated in place (keeping its position), otherwise the
pair is appended at the end. -/
def odInsert (m : List (ℚ × ℤ)) (k : ℚ) (v : ℤ) : List (ℚ × ℤ) :=
  if m.any (fun p => p.1 == k) then
    m.map (fun p => if p.1 == k then (k, v) else p)
  else m ++ [(k, v)]

/-- Insertion loop over the intermediate levels
(`netflix_dash.py` lines 31–34): assign `rate_map[current_marker] = bitrate`
and advance the marker by `marker_length`. -/
def insertLevels (ml : ℚ) : ℚ → List ℤ → List (ℚ × ℤ) → List (ℚ × ℤ)
  | _, [], m => m
  | marker, b :: bs, m => insertLevels ml (marker + ml) bs (odInsert m marker b)

/-- `get_rate_map` (`netflix_dash.py` lines 18–45), with the configuration
reservoir `r` and cushion `c` as parameters.  `none` models the `IndexError`
on an empty bitrate list: `bitrates[0]` raises both in the `try` block and in
the fallback handler, so the exception propagates. -/
def get_rate_map (r c : ℚ) (bitrates : List ℤ) : Option (List (ℚ × ℤ)) :=
  match bitrates with
  | [] => none
  | b0 :: rest =>
    let m1 := odInsert [] r b0
    let intermediate := if (b0 :: rest).length > 2 then rest.dropLast else []
    let m2 :=
      if intermediate.isEmpty then m1
      else
        let ml := (c - r) / (intermediate.length + 1)
        insertLevels ml (r + ml) intermediate m1
    some (odInsert m2 c (rest.getLastD b0))

/-- The value stored at the minimum key,
`rate_map.get(min(rate_map.keys()), bitrates[0])`
(`netflix_dash.py` line 149): `min()` on an empty sequence raises, which the
outer handler turns into `bitrates[0]` (the `dflt` argument here). -/
def valueAtMinKey (rate_map : List (ℚ × ℤ)) (dflt : ℤ) : ℤ :=
  match (rate_map.map Prod.fst).min? with
  | none => dflt
  | some kmin =>
    match rate_map.find? (fun p => p.1 == kmin) with
    | some p => p.2
    | none => dflt

/-- Bitrate selection from the buffer percentage
(`netflix_dash.py` lines 137–149): minimum at or below the reservoir, maximum
at or above the cushion, otherwise the first rate-map key strictly below the
percentage when iterating the keys in reverse insertion order. -/
def rate_lookup (r c : ℚ) (b0 blast : ℤ) (bp : ℚ) (rate_map : List (ℚ × ℤ)) : ℤ :=
  if bp ≤ r then b0
  else if bp ≥ c then blast
  else
    match rate_map.reverse.find? (fun p => decide (p.1 < bp)) with
    | some p => p.2
    | none => valueAtMinKey rate_map b0

/-- `get_rate_netflix` (`netflix_dash.py` lines 122–153).  `none` models the
`IndexError` on an empty bitrate list (the handlers re-raise via
`bitrates[0]`).  An empty (falsy) `rate_map` is rebuilt with `get_rate_map`;
the rebuild cannot fail here because the bitrate list is non-empty.  The
buffer percentage is `occupancy / buffer_size` guarded by the truthiness test
`if buffer_size`, so a zero size yields percentage `0` and the
`ZeroDivisionError` handler is unreachable. -/
def get_rate_netflix (r c : ℚ) (bitrates : List ℤ)
    (current_buffer_occupancy buffer_size : ℚ) (rate_map : List (ℚ × ℤ)) :
    Option ℤ :=
  match bitrates with
  | [] => none
  | b0 :: rest =>
    let rm := if rate_map.isEmpty then (get_rate_map r c (b0 :: rest)).getD []
              else rate_map
    let bp := if buffer_size ≠ 0 then current_buffer_occupancy / buffer_size else 0
    some (rate_lookup r c b0 (rest.getLastD b0) bp rm)

/-- The slice of the `DashPlayer` object read by `netflix_dash`:
`buffer.qsize()`, `initial_buffer` and `segment_duration`. -/
structure DashPlayer where
  qsize : ℤ
  initial_buffer : ℤ
  segment_duration : ℚ
deriving DecidableEq

/-- The body of `netflix_dash` (`netflix_dash.py` lines 47–120) after the
sort at line 53, with the `config_dash` constants as the first five
parameters.  Python `sorted` on ints is modelled
by `List.insertionSort`; `int(b)` is the identity on `ℤ`.  A falsy
`curr_bitrate` is `0`, a falsy `rate_map` is `[]`, a falsy `state` is `none`.
`average_segment_sizes` is modelled as a total function, so the `KeyError`
path is not represented; the `ValueError`/`IndexError` handler of the INITIAL
branch is unreachable because `.index` is guarded by the membership test and
the step-up access is guarded by `current_index < len(bitrates) - 1`.
`none` models the `IndexError` propagated on an empty bitrate list. -/
def netflix_dash_body (r c bufSize initialBuffer initialFactor : ℚ)
    (bitrates : List ℤ) (player : DashPlayer) (segment_download_rate : ℚ)
    (curr_bitrate : ℤ) (average_segment_sizes : ℤ → ℚ)
    (rate_map : List (ℚ × ℤ)) (state : Option NState) :
    Option (ℤ × List (ℚ × ℤ) × Option NState) :=
  match bitrates with
  | [] => none
  | b0 :: rest =>
    if curr_bitrate = 0 ∨ rate_map = [] ∨ state = none then
      some (b0, (get_rate_map r c (b0 :: rest)).getD [], some .INITIAL)
    else
      let available : ℤ := max 0 (player.qsize - player.initial_buffer)
      if state = some .INITIAL then
        if curr_bitrate ∉ (b0 :: rest) then some (b0, rate_map, state)
        else
          let delta_B : ℚ :=
            if segment_download_rate > 0 then
              player.segment_duration -
                average_segment_sizes curr_bitrate / segment_download_rate
            else 0
          let current_index := (b0 :: rest).indexOf curr_bitrate
          let next1 : ℤ :=
            if delta_B > initialFactor * player.segment_duration ∧
                current_index < (b0 :: rest).length - 1 then
              (b0 :: rest).getD (current_index + 1) 0
            else curr_bitrate
          if (available : ℚ) ≥ initialBuffer then
            match get_rate_netflix r c (b0 :: rest) (available : ℚ) bufSize rate_map with
            | some rmb =>
              if rmb ≠ 0 ∧ rmb > next1 then some (rmb, rate_map, some .RUNNING)
              else some (next1, rate_map, some .INITIAL)
            | none => none
          else some (next1, rate_map, some .INITIAL)
      else
        match get_rate_netflix r c (b0 :: rest) (available : ℚ) bufSize rate_map with
        | some nb => some ((if nb = 0 then curr_bitrate else nb), rate_map, state)
        | none => none

/-- `netflix_dash` proper: the rebinding
`bitrates = sorted([int(b) for b in bitrates])` at line 53 followed by the
body above. -/
def netflix_dash (r c bufSize initialBuffer initialFactor : ℚ)
    (bitratesIn : List ℤ) (player : DashPlayer) (segment_download_rate : ℚ)
    (curr_bitrate : ℤ) (average_segment_sizes : ℤ → ℚ)
    (rate_map : List (ℚ × ℤ)) (state : Option NState) :
    Option (ℤ × List (ℚ × ℤ) × Option NState) :=
  netflix_dash_body r c bufSize initialBuffer initialFactor
    (bitratesIn.insertionSort (· ≤ ·)) player segment_download_rate
    curr_bitrate average_segment_sizes rate_map state

/-! ### Scheduler fragments (`dash_client.py`) -/

/-- The loop-local `segment_duration` of `start_playback_smart`
(`dash_client.py` line 498): initialised to `0` and never reassigned — the
assignment from the MPD (line 480) is commented out in the source. -/
def scheduler_segment_duration : ℚ := 0

/-- Netflix buffer-full delay (`dash_client.py` lines 596–599): when the
buffer depth reaches `NETFLIX_BUFFER_SIZE`, set
`delay = (qsize - NETFLIX_BUFFER_SIZE + 1) * segment_duration`; otherwise the
delay keeps its reset value `0`. -/
def netflix_pacing_delay (qsize netflix_buffer_size : ℤ) (segment_duration : ℚ) : ℚ :=
  if qsize ≥ netflix_buffer_size then
    ((qsize : ℚ) - (netflix_buffer_size : ℚ) + 1) * segment_duration
  else 0

/-- Seconds actually slept by the pacing block (`dash_client.py` lines
607–613): the busy-wait loop runs until `delay * segment_duration` seconds
have elapsed. -/
def pacing_sleep_seconds (delay segment_duration : ℚ) : ℚ :=
  delay * segment_duration

/-- Composition of the two scheduler fragments for the Netflix playback type:
the delay computed at lines 596–599 fed into the sleep at lines 607–613. -/
def netflix_sleep_seconds (qsize netflix_buffer_size : ℤ) (segment_duration : ℚ) : ℚ :=
  pacing_sleep_seconds (netflix_pacing_delay qsize netflix_buffer_size segment_duration)
    segment_duration

/-- `extract_last_w_rates` (`dash_client.py` lines 406–422) on the sequence of
throughput samples found in the log, oldest first: the mean of the last `w`
samples, or `none` when there is no sample at all. -/
def extract_last_w_rates (samples : List ℚ) (w : ℕ) : Option ℚ :=
  let rates := samples.reverse.take w
  if rates.isEmpty then none
  else some (rates.sum / (rates.length : ℚ))

/-- Outcome of one pass through the admission loop of
`start_playback_smart`: either the loop breaks and the next segment download
is dispatched, or it keeps waiting. -/
inductive AdmissionOutcome where
  | dispatch : AdmissionOutcome
  | wait : AdmissionOutcome
deriving DecidableEq, Repr

/-- One iteration of the admission loop (`dash_client.py` lines 517–530) with
`use_concurrent = True`: `ongoing` in-flight downloads, `sample` the result of
`extract_last_w_rates` (`none` when the throughput window holds no sample).
Line 519 breaks when nothing is in flight; lines 526–529 break when a sample
exists and a download slot is free; line 530 is an unconditional `break`
reached otherwise, so the concurrent path never reaches the
`concurrent.futures.wait` call at line 533. -/
def concurrent_admission_step (ongoing max_downloads : ℕ) (sample : Option ℚ) :
    AdmissionOutcome :=
  if ongoing = 0 then .dispatch
  else if sample.isSome ∧ ongoing < max_downloads then .dispatch
  else .dispatch

/-! ### PEP proxy (`proxy.py`)

Python strings are modelled as `List Char` (structurally recursive, unlike
`String` functions), with literals written `"…".data`. -/

/-- Python `str.strip()`: remove leading and trailing whitespace. -/
def pyStrip (s : List Char) : List Char :=
  ((s.dropWhile Char.isWhitespace).reverse.dropWhile Char.isWhitespace).reverse

/-- Python `str.startswith(pat)`. -/
def pyStartsWith : List Char → List Char → Bool
  | _, [] => true
  | [], _ :: _ => false
  | a :: s, b :: p => a = b && pyStartsWith s p

/-- Python `str.split(sep)` with a one-character separator, keeping empty
parts, as used by `connect_request.split(' ')` and
`target_host_port.split(':')` in `proxy.py` lines 166–167. -/
def pySplit (sep : Char) : List Char → List (List Char)
  | [] => [[]]
  | a :: rest =>
    let r := pySplit sep rest
    if a = sep then [] :: r
    else
      match r with
      | [] => [[a]]
      | g :: gs => (a :: g) :: gs

/-- Python `int(str)` (`proxy.py` line 168): optional surrounding whitespace,
optional sign, then decimal digits; anything else raises `ValueError`
(`none`).  CPython also accepts digit-group underscores, which no CONNECT
line contains; they are not modelled. -/
def pyInt? (s : List Char) : Option ℤ :=
  let t := pyStrip s
  let (sign, ds) : ℤ × List Char :=
    match t with
    | '-' :: rest => (-1, rest)
    | '+' :: rest => (1, rest)
    | _ => (1, t)
  if ds ≠ [] ∧ ds.all Char.isDigit then
    some (sign * ds.foldl (fun acc d => 10 * acc + ((d.toNat : ℤ) - ('0'.toNat : ℤ))) 0)
  else none

/-- The CONNECT-line parse of `HTTPSConnectionHandler.handle_client`
(`proxy.py` lines 164–168): split the stripped request on single spaces into
exactly three parts, split the middle part on `:` into exactly two parts, and
parse the port with `int`; any failure raises `ValueError`, modelled as
`none`. -/
def parseConnect (req : List Char) : Option (List Char × ℤ) :=
  match pySplit ' ' req with
  | [_, hostport, _] =>
    match pySplit ':' hostport with
    | [h, p] =>
      match pyInt? p with
      | some n => some (h, n)
      | none => none
    | _ => none
  | _ => none

/-- `HTTPSConnectionHandler.handle_client` (`proxy.py` lines 148–200).
The input is the decoded request (`data.decode('utf-8')`); `upstream_ok`
models the outcome of `connect_to_server`.  The result is the response sent
back to the client (`none`: the handler returns without sending anything, as
for empty data) paired with whether the byte relay `proxy_data` is entered. -/
def handle_client (data : List Char) (upstream_ok : Bool) : Option (List Char) × Bool :=
  if data = [] then (none, false)
  else
    let req := pyStrip data
    if pyStartsWith req "CONNECT".data then
      match parseConnect req with
      | some _ =>
        if upstream_ok then
          (some "HTTP/1.1 200 Connection established\r\n\r\n".data, true)
        else
          (some "HTTP/1.1 502 Bad Gateway\r\n\r\n".data, false)
      | none => (some "HTTP/1.1 400 Bad Request\r\n\r\n".data, false)
    else (some "HTTP/1.1 405 Method Not Allowed\r\n\r\n".data, false)

/-! ### Helper lemmas -/

/-- Iterating an association list with strictly increasing keys in reverse
and taking the first entry whose key is strictly below `x` yields the entry
with the largest key strictly below `x`. -/
lemma findRev_eq_max (rm : List (ℚ × ℤ)) (hkeys : (rm.map Prod.fst).Pairwise (· < ·))
    (x k : ℚ) (v : ℤ) (hmem : (k, v) ∈ rm) (hk : k < x)
    (hmax : ∀ p ∈ rm, p.1 < x → p.1 ≤ k) :
    rm.reverse.find? (fun p => decide (p.1 < x)) = some (k, v) := by
  induction rm using List.reverseRecOn with
  | nil => simp at hmem
  | append_singleton l a ih =>
    rw [List.map_append, List.pairwise_append] at hkeys
    obtain ⟨hl, -, hcross⟩ := hkeys
    rw [List.reverse_append, List.reverse_singleton, List.singleton_append]
    by_cases ha : a.1 < x
    · have hka : (k, v) = a := by
        rcases List.mem_append.mp hmem with hmem' | hmem'
        · exact absurd (hmax a (List.mem_append_right l (List.mem_singleton_self a)) ha)
            (not_le.mpr (hcross k (List.mem_map_of_mem Prod.fst hmem') a.1
              (by simp)))
        · simpa using hmem'
      rw [List.find?_cons_of_pos _ (by simpa using ha), hka]
    · have hmem' : (k, v) ∈ l := by
        rcases List.mem_append.mp hmem with h | h
        · exact h
        · rw [List.mem_singleton] at h
          subst h
          exact absurd hk (not_lt.mpr (by simpa using ha))
      rw [List.find?_cons_of_neg _ (by simpa using ha)]
      exact ih hl hmem' fun p hp hpx => hmax p (List.mem_append_left _ hp) hpx

/-- `OrderedDict` assignment with a fresh key appends. -/
lemma odInsert_of_ne (m : List (ℚ × ℤ)) (k : ℚ) (v : ℤ)
    (h : ∀ p ∈ m, p.1 ≠ k) : odInsert m k v = m ++ [(k, v)] := by
  have hany : (m.any fun p => p.1 == k) = false := by
    rw [List.any_eq_false]
    intro p hp
    simpa using h p hp
  simp [odInsert, hany]

/-- The intermediate-level loop appends the equally spaced markers zipped
with the levels, as long as every key already present is below the first
marker. -/
lemma insertLevels_eq (ml : ℚ) (hml : 0 < ml) (bs : List ℤ) :
    ∀ (marker : ℚ) (m : List (ℚ × ℤ)), (∀ p ∈ m, p.1 < marker) →
      insertLevels ml marker bs m =
        m ++ ((List.range bs.length).map (fun i : ℕ => marker + (i : ℚ) * ml)).zip bs := by
  induction bs with
  | nil => intro marker m _; simp [insertLevels]
  | cons b bs ih =>
    intro marker m hm
    have hside : ∀ p ∈ m ++ [(marker, b)], p.1 < marker + ml := by
      intro p hp
      rcases List.mem_append.mp hp with h | h
      · linarith [hm p h]
      · rw [List.mem_singleton] at h
        rw [h]
        simpa using hml
    rw [insertLevels, odInsert_of_ne m marker b (fun p hp => ne_of_lt (hm p hp)),
      ih (marker + ml) (m ++ [(marker, b)]) hside, List.append_assoc]
    congr 1
    rw [List.length_cons, List.range_succ_eq_map, List.map_cons, List.map_map,
      List.singleton_append, List.zip_cons_cons]
    congr 1
    · norm_num
    · congr 1
      refine List.map_congr_left fun i _ => ?_
      simp only [Function.comp_apply, Nat.succ_eq_add_one]
      push_cast
      ring

/-- Dropping the last element and re-appending it is the identity on
non-empty lists. -/
lemma dropLast_append_getLastD {α : Type} (l : List α) (d : α) (h : l ≠ []) :
    l.dropLast ++ [l.getLastD d] = l := by
  induction l generalizing d with
  | nil => exact absurd rfl h
  | cons a l ih =>
    cases l with
    | nil => rfl
    | cons b l' =>
      rw [List.dropLast_cons₂, List.getLastD_cons, List.cons_append,
        ih a (List.cons_ne_nil b l')]

/-- Structure of the built rate map: for `n ≥ 2` bitrates and
`reservoir < cushion`, `get_rate_map` returns exactly the list of equally
spaced keys `r + i·(c-r)/(n-1)` zipped with the bitrates. -/
lemma get_rate_map_eq (r c : ℚ) (hrc : r < c) (bitrates : List ℤ)
    (hn : 2 ≤ bitrates.length) :
    get_rate_map r c bitrates =
      some (((List.range bitrates.length).map
        (fun i : ℕ => r + (i : ℚ) * ((c - r) / ((bitrates.length : ℚ) - 1)))).zip bitrates) := by
  cases bitrates with
  | nil => simp at hn
  | cons b0 rest =>
  cases rest with
  | nil => simp at hn
  | cons b1 rest2 =>
  cases rest2 with
  | nil =>
    have hne : r ≠ c := ne_of_lt hrc
    simp [get_rate_map, odInsert, hne, List.range_succ]
    norm_num
  | cons b2 rest3 =>
    set t := rest3.length with ht
    have hml : 0 < (c - r) / ((t : ℚ) + 2) := by
      apply div_pos (sub_pos.mpr hrc)
      positivity
    set ml : ℚ := (c - r) / ((t : ℚ) + 2) with hmldef
    -- the intermediate levels and their length
    set inter := (b2 :: rest3).dropLast with hinter
    have hint : (b1 :: b2 :: rest3).dropLast = b1 :: inter := rfl
    have hinterlen : inter.length = t := by
      simp [hinter, List.length_dropLast, ht]
    have htot : (b0 :: b1 :: b2 :: rest3).length = t + 3 := by
      simp [ht]
    set markers := (List.range (t + 1)).map (fun i : ℕ => (r + ml) + (i : ℚ) * ml)
      with hmarkers
    have hc_eq : r + ((t : ℚ) + 2) * ml = c := by
      rw [hmldef]
      have : ((t : ℚ) + 2) ≠ 0 := by positivity
      field_simp
    have hkey_lt : ∀ i : ℕ, i < t + 1 → (r + ml) + (i : ℚ) * ml < c := by
      intro i hi
      have hi' : ((i : ℚ) + 1) < (t : ℚ) + 2 := by
        have : (i : ℚ) < (t : ℚ) + 1 := by exact_mod_cast hi
        linarith
      calc (r + ml) + (i : ℚ) * ml = r + ((i : ℚ) + 1) * ml := by ring
        _ < r + ((t : ℚ) + 2) * ml :=
            add_lt_add_left (mul_lt_mul_of_pos_right hi' hml) r
        _ = c := hc_eq
    -- evaluate the insertion loop
    have hm1 : odInsert [] r b0 = [(r, b0)] := by simp [odInsert]
    have hloop : insertLevels ml (r + ml) (b1 :: inter) [(r, b0)] =
        [(r, b0)] ++ markers.zip (b1 :: inter) := by
      rw [insertLevels_eq ml hml (b1 :: inter) (r + ml) [(r, b0)]
        (by intro p hp; rw [List.mem_singleton] at hp; rw [hp]; simpa using hml)]
      rw [hmarkers, List.length_cons, hinterlen]
    -- the cushion key is fresh
    have hfresh : ∀ p ∈ [(r, b0)] ++ markers.zip (b1 :: inter), p.1 ≠ c := by
      intro p hp
      rcases List.mem_append.mp hp with h | h
      · rw [List.mem_singleton] at h
        rw [h]
        exact ne_of_lt hrc
      · obtain ⟨k, v⟩ := p
        have hk : k ∈ markers := (List.of_mem_zip h).1
        rw [hmarkers] at hk
        obtain ⟨i, hi, rfl⟩ := List.mem_map.mp hk
        exact ne_of_lt (hkey_lt i (List.mem_range.mp hi))
    -- assemble the left-hand side
    have hlhs : get_rate_map r c (b0 :: b1 :: b2 :: rest3) =
        some (([(r, b0)] ++ markers.zip (b1 :: inter)) ++
          [(c, (b1 :: b2 :: rest3).getLastD b0)]) := by
      rw [get_rate_map]
      simp only [htot]
      rw [if_pos (by omega : t + 3 > 2)]
      simp only [hint, List.isEmpty_cons, Bool.false_eq_true, if_false,
        List.length_cons, hinterlen, hm1]
      rw [show (((t + 1 : ℕ) : ℚ) + 1) = (t : ℚ) + 2 by push_cast; ring, ← hmldef,
        hloop, odInsert_of_ne _ c _ hfresh]
    rw [hlhs]
    -- assemble the right-hand side
    have hnlen : (((t + 3 : ℕ) : ℚ) - 1) = (t : ℚ) + 2 := by push_cast; ring
    have hkeys : (List.range (t + 3)).map
        (fun i : ℕ => r + (i : ℚ) * ((c - r) / (((t + 3 : ℕ) : ℚ) - 1))) =
        (r :: markers) ++ [c] := by
      simp only [hnlen, ← hmldef]
      rw [show t + 3 = (t + 2) + 1 from rfl, List.range_succ, List.map_append,
        show t + 2 = (t + 1) + 1 from rfl, List.range_succ_eq_map,
        List.map_cons, List.map_map, List.map_singleton]
      congr 1
      · congr 1
        · norm_num
        · rw [hmarkers]
          refine List.map_congr_left fun i _ => ?_
          simp only [Function.comp_apply, Nat.succ_eq_add_one]
          push_cast
          ring
      · rw [show (((t + 2 : ℕ) : ℚ)) = (t : ℚ) + 2 by push_cast; ring, hc_eq]
    have hsplit : b1 :: b2 :: rest3 =
        (b1 :: inter) ++ [(b1 :: b2 :: rest3).getLastD b0] := by
      rw [← hint]
      exact (dropLast_append_getLastD (b1 :: b2 :: rest3) b0
        (List.cons_ne_nil _ _)).symm
    rw [htot, hkeys]
    conv_rhs => rw [hsplit]
    rw [show ((r :: markers) ++ [c]).zip (b0 :: ((b1 :: inter) ++
          [(b1 :: b2 :: rest3).getLastD b0])) =
        (r, b0) :: (markers ++ [c]).zip ((b1 :: inter) ++
          [(b1 :: b2 :: rest3).getLastD b0]) from rfl]
    rw [List.zip_append (by simp [hmarkers, hinterlen])]
    simp

/-- Every entry of an `OrderedDict` assignment is an old entry or the new
pair. -/
lemma mem_odInsert {m : List (ℚ × ℤ)} {k : ℚ} {v : ℤ} {p : ℚ × ℤ}
    (h : p ∈ odInsert m k v) : p ∈ m ∨ p = (k, v) := by
  unfold odInsert at h
  split at h
  · obtain ⟨q, hq, hqe⟩ := List.mem_map.mp h
    by_cases hk : (q.1 == k) = true
    · right
      rw [if_pos hk] at hqe
      exact hqe.symm
    · left
      rw [if_neg hk] at hqe
      rwa [← hqe]
  · rcases List.mem_append.mp h with h | h
    · left; exact h
    · right; simpa using h

/-- Every value inserted by the intermediate-level loop comes from the
accumulator or from the level list. -/
lemma insertLevels_values {ml : ℚ} {bs : List ℤ} :
    ∀ {marker : ℚ} {m : List (ℚ × ℤ)} {p : ℚ × ℤ},
      p ∈ insertLevels ml marker bs m → p ∈ m ∨ p.2 ∈ bs := by
  induction bs with
  | nil =>
    intro marker m p h
    left
    simpa [insertLevels] using h
  | cons b bs ih =>
    intro marker m p h
    rw [insertLevels] at h
    rcases ih h with h' | h'
    · rcases mem_odInsert h' with h'' | h''
      · left; exact h''
      · right
        rw [h'']
        exact List.mem_cons_self b bs
    · right
      exact List.mem_cons_of_mem b h'

/-- The last element of `b0 :: rest` written as `rest.getLastD b0` is a
member of the list. -/
lemma getLastD_cons_mem (b0 : ℤ) (rest : List ℤ) :
    rest.getLastD b0 ∈ b0 :: rest := by
  have h := List.getLast_mem (List.cons_ne_nil b0 rest)
  rwa [List.getLast_eq_getLastD] at h

/-- Every value of the built rate map is one of the bitrates. -/
lemma get_rate_map_values {r c : ℚ} {bitrates : List ℤ} {m : List (ℚ × ℤ)}
    (hm : get_rate_map r c bitrates = some m) : ∀ p ∈ m, p.2 ∈ bitrates := by
  cases bitrates with
  | nil => simp [get_rate_map] at hm
  | cons b0 rest =>
    rw [get_rate_map] at hm
    have hm' := Option.some_inj.mp hm
    intro p hp
    rw [← hm'] at hp
    have hm1 : ∀ q ∈ odInsert [] r b0, q.2 ∈ b0 :: rest := by
      intro q hq
      rcases mem_odInsert hq with h | h
      · simp at h
      · rw [h]
        exact List.mem_cons_self b0 rest
    rcases mem_odInsert hp with h | h
    · split at h <;> split at h
      · exact hm1 p h
      · rcases insertLevels_values h with h' | h'
        · exact hm1 p h'
        · exact List.mem_cons_of_mem b0 (List.dropLast_subset rest h')
      · exact hm1 p h
      · rcases insertLevels_values h with h' | h'
        · exact hm1 p h'
        · simp at h'
    · rw [h]
      exact getLastD_cons_mem b0 rest

/-- The buffer-percentage lookup only ever returns the minimum bitrate, the
maximum bitrate, or a value stored in the rate map. -/
lemma rate_lookup_mem (r c : ℚ) (b0 : ℤ) (rest : List ℤ) (bp : ℚ)
    (rm : List (ℚ × ℤ)) (hvals : ∀ p ∈ rm, p.2 ∈ b0 :: rest) :
    rate_lookup r c b0 (rest.getLastD b0) bp rm ∈ b0 :: rest := by
  rw [rate_lookup]
  split
  · exact List.mem_cons_self b0 rest
  split
  · exact getLastD_cons_mem b0 rest
  · split
    · next p hp =>
      exact hvals p (List.mem_reverse.mp (List.mem_of_find?_eq_some hp))
    · rw [valueAtMinKey]
      split
      · exact List.mem_cons_self b0 rest
      · split
        · next p hp => exact hvals p (List.mem_of_find?_eq_some hp)
        · exact List.mem_cons_self b0 rest

/-- `get_rate_netflix` on a non-empty bitrate list returns a bitrate that is
the minimum, the maximum, or a rate-map value; when all rate-map values are
bitrates, the result is a bitrate. -/
lemma get_rate_netflix_mem (r c : ℚ) (b0 : ℤ) (rest : List ℤ) (occ bs : ℚ)
    (rm : List (ℚ × ℤ)) (hvals : ∀ p ∈ rm, p.2 ∈ b0 :: rest) :
    ∃ x, get_rate_netflix r c (b0 :: rest) occ bs rm = some x ∧ x ∈ b0 :: rest := by
  refine ⟨_, rfl, ?_⟩
  cases hrm : rm.isEmpty with
  | true =>
    simp only [hrm, if_true]
    obtain ⟨mm, hmm⟩ : ∃ mm, get_rate_map r c (b0 :: rest) = some mm := by
      rw [get_rate_map]
      exact ⟨_, rfl⟩
    rw [hmm, Option.getD_some]
    exact rate_lookup_mem r c b0 rest _ mm (get_rate_map_values hmm)
  | false =>
    simp only [hrm, Bool.false_eq_true, if_false]
    exact rate_lookup_mem r c b0 rest _ rm hvals

/-! ### Theorems -/

/-- C6: the spec claims the scheduler sleeps
`(depth - NETFLIX_BUFFER_SIZE + 1) * segment_duration` seconds (12 s for
depth 12, buffer size 10, duration 4 s).  The code computes the delay with
the loop-local `segment_duration`, which is stuck at `0` (line 498; the
assignment at line 480 is commented out), and the sleep block multiplies by
`segment_duration` a second time — so it sleeps 0 s, and would sleep 48 s
even if `segment_duration` held the intended 4 s.  This theorem evaluates the
embedded code at the failing input. -/
theorem c6_netflix_pacing_code_bug :
    netflix_sleep_seconds 12 NETFLIX_BUFFER_SIZE scheduler_segment_duration = 0 ∧
    netflix_sleep_seconds 12 NETFLIX_BUFFER_SIZE 4 = 48 ∧
    (0 : ℚ) ≠ 12 ∧ (48 : ℚ) ≠ 12 := by
  norm_num [netflix_sleep_seconds, netflix_pacing_delay, pacing_sleep_seconds,
    scheduler_segment_duration, NETFLIX_BUFFER_SIZE]

/-- C7: the spec claims that with concurrency enabled the scheduler does not
dispatch a second overlapping download while the throughput window holds no
sample.  In the code, the admission loop's unconditional `break` at line 530
dispatches immediately even when `extract_last_w_rates` returned `None`:
with one download in flight and an empty window the outcome is `dispatch`,
never `wait`.  This theorem evaluates the embedded code at the failing
input. -/
theorem c7_concurrent_gating_code_bug :
    extract_last_w_rates [] 5 = none ∧
    concurrent_admission_step 1 2 (extract_last_w_rates [] 5) = .dispatch ∧
    concurrent_admission_step 1 2 none ≠ .wait := by decide

/-- C4 (counterexample): the claim's map keys `0.375, 0.5458…, 0.7166…, 0.9`
are wrong — with reservoir 0.375 and cushion 0.9 the second key produced by
`get_rate_map` is `11/20 = 0.55`, which does not begin with the digits
`0.5458`. -/
theorem c4_counterexample :
    (get_rate_map (3/8) (9/10) [200000, 400000, 800000, 1600000]).map
        (List.map Prod.fst) = some [3/8, 11/20, 29/40, 9/10] ∧
    ¬ ((5458/10000 : ℚ) ≤ 11/20 ∧ (11/20 : ℚ) < 5459/10000) := by
  norm_num [get_rate_map, insertLevels, odInsert]

/-- C4 (amended): for bitrates `[200000, 400000, 800000, 1600000]` with
reservoir 0.375 and cushion 0.9, `get_rate_map` produces the keys
`0.375, 0.55, 0.725, 0.9` (in order) mapping to the four bitrates, with
interval width `(0.9 - 0.375)/3 = 0.175`. -/
theorem c4_amended_rate_map :
    get_rate_map (3/8) (9/10) [200000, 400000, 800000, 1600000] =
      some [(3/8, 200000), (11/20, 400000), (29/40, 800000), (9/10, 1600000)] ∧
    ((9 : ℚ)/10 - 3/8) / 3 = 175/1000 := by
  norm_num [get_rate_map, insertLevels, odInsert]

/-- C8 (counterexample): the rate-map round-trip fails at interior keys.  In
the map built from `[200000, 400000, 800000, 1600000]` the key `11/20`
carries the bitrate `400000`, yet the Netflix lookup at buffer fraction
`11/20` (occupancy 5.5 of buffer size 10) returns `200000`, because the floor
lookup excludes equality. -/
theorem c8_counterexample :
    get_rate_map (3/8) (9/10) [200000, 400000, 800000, 1600000] =
      some [(3/8, 200000), (11/20, 400000), (29/40, 800000), (9/10, 1600000)] ∧
    ((11/20 : ℚ), (400000 : ℤ)) ∈
      [((3/8 : ℚ), (200000 : ℤ)), (11/20, 400000), (29/40, 800000), (9/10, 1600000)] ∧
    get_rate_netflix (3/8) (9/10) [200000, 400000, 800000, 1600000] (11/2) 10
        [(3/8, 200000), (11/20, 400000), (29/40, 800000), (9/10, 1600000)] =
      some 200000 ∧
    (200000 : ℤ) ≠ 400000 := by
  refine ⟨by norm_num [get_rate_map, insertLevels, odInsert], by norm_num, ?_, by norm_num⟩
  norm_num [get_rate_netflix, rate_lookup, List.find?]

/-- C9 (counterexample): the claim says a request whose first line is not a
CONNECT is answered 405.  The code only tests
`connect_request.startswith('CONNECT')`, so the request
`CONNECTX a:1 HTTP/1.1` — whose method is `CONNECTX`, not `CONNECT` — is
handled by the CONNECT branch and answered 502 or 200, never 405. -/
theorem c9_counterexample :
    (pySplit ' ' "CONNECTX a:1 HTTP/1.1".data).headI ≠ "CONNECT".data ∧
    (handle_client "CONNECTX a:1 HTTP/1.1".data false).1 ≠
        some "HTTP/1.1 405 Method Not Allowed\r\n\r\n".data ∧
    (handle_client "CONNECTX a:1 HTTP/1.1".data false).1 =
        some "HTTP/1.1 502 Bad Gateway\r\n\r\n".data ∧
    (handle_client "CONNECTX a:1 HTTP/1.1".data true).1 =
        some "HTTP/1.1 200 Connection established\r\n\r\n".data := by decide

/-- C1 (counterexample): the claim quantifies over every rate map, but a rate
map holding a value outside the bitrate list escapes: with sorted positive
bitrates `[100, 200]`, rate map `{0.5 ↦ 999}`, RUNNING state and available
buffer 6 (fraction 0.6 of buffer size 10), `netflix_dash` returns the bitrate
`999`, which is not an element of the bitrate list. -/
theorem c1_counterexample :
    List.Sorted (· ≤ ·) [(100 : ℤ), 200] ∧
    netflix_dash (3/8) (9/10) 10 2 (7/8) [100, 200] ⟨6, 0, 4⟩ 0 100 (fun _ => 0)
        [(1/2, 999)] (some .RUNNING) = some (999, [(1/2, 999)], some .RUNNING) ∧
    (999 : ℤ) ∉ [(100 : ℤ), 200] := by
  refine ⟨by decide, ?_, by decide⟩
  norm_num [netflix_dash, netflix_dash_body, get_rate_netflix, rate_lookup,
    List.insertionSort, List.orderedInsert, List.find?]
  decide

/-- C2: for a sorted bitrate list with `n ≥ 2` elements and configuration
`0 < reservoir < cushion < 1`, `get_rate_map` returns a map with exactly `n`
entries, whose keys in insertion order are the strictly increasing equally
spaced values `r + i·(c-r)/(n-1)` (first key `r`, last key `c`), and whose
values are the bitrates in order — so the first key carries the minimum and
the last key the maximum bitrate. -/
theorem c2_rate_map_completeness (r c : ℚ) (bitrates : List ℤ)
    (hn : 2 ≤ bitrates.length) (_h0 : 0 < r) (hrc : r < c) (_hc1 : c < 1)
    (_hsorted : List.Sorted (· ≤ ·) bitrates) :
    ∃ m, get_rate_map r c bitrates = some m ∧
      m.length = bitrates.length ∧
      m.map Prod.fst = (List.range bitrates.length).map
        (fun i : ℕ => r + (i : ℚ) * ((c - r) / ((bitrates.length : ℚ) - 1))) ∧
      (m.map Prod.fst).Pairwise (· < ·) ∧
      (m.map Prod.fst).head? = some r ∧
      (m.map Prod.fst).getLast? = some c ∧
      m.map Prod.snd = bitrates := by
  have h2 : (2 : ℚ) ≤ (bitrates.length : ℚ) := by exact_mod_cast hn
  have hml : 0 < (c - r) / ((bitrates.length : ℚ) - 1) :=
    div_pos (sub_pos.mpr hrc) (by linarith)
  set f : ℕ → ℚ :=
    fun i => r + (i : ℚ) * ((c - r) / ((bitrates.length : ℚ) - 1)) with hf
  have hlenkeys : ((List.range bitrates.length).map f).length = bitrates.length := by
    simp
  obtain ⟨k, hk⟩ : ∃ k, bitrates.length = k + 2 :=
    ⟨bitrates.length - 2, by omega⟩
  have hkeyfst : (((List.range bitrates.length).map f).zip bitrates).map Prod.fst =
      (List.range bitrates.length).map f :=
    List.map_fst_zip _ _ (le_of_eq hlenkeys)
  have hflast : f (k + 1) = c := by
    have hcast : ((bitrates.length : ℚ) - 1) = (k : ℚ) + 1 := by
      rw [hk]
      push_cast
      ring
    have hne : (k : ℚ) + 1 ≠ 0 := by positivity
    rw [hf]
    simp only [hcast]
    push_cast
    field_simp
  refine ⟨_, get_rate_map_eq r c hrc bitrates hn, ?_, hkeyfst, ?_, ?_, ?_, ?_⟩
  · simp [List.length_zip, hlenkeys]
  · rw [hkeyfst, List.pairwise_map]
    refine (List.pairwise_lt_range _).imp ?_
    intro a b hab
    exact add_lt_add_left
      (mul_lt_mul_of_pos_right (by exact_mod_cast hab) hml) r
  · rw [hkeyfst, hk, List.range_succ_eq_map, List.map_cons, List.head?_cons]
    simp [hf]
  · rw [hkeyfst, hk, show k + 2 = (k + 1) + 1 from rfl, List.range_succ,
      List.map_append, List.map_singleton, List.getLast?_concat, hflast]
  · exact List.map_snd_zip _ _ (le_of_eq hlenkeys.symm)

/-- Witness for C2 at reservoir 0.375, cushion 0.9 and bitrates `[1, 2]`. -/
theorem c2_rate_map_completeness_witness :
    ∃ m, get_rate_map (3/8) (9/10) [1, 2] = some m ∧
      m.length = ([1, 2] : List ℤ).length ∧
      m.map Prod.fst = (List.range ([1, 2] : List ℤ).length).map
        (fun i : ℕ => 3/8 + (i : ℚ) *
          ((9/10 - 3/8) / ((([1, 2] : List ℤ).length : ℚ) - 1))) ∧
      (m.map Prod.fst).Pairwise (· < ·) ∧
      (m.map Prod.fst).head? = some (3/8) ∧
      (m.map Prod.fst).getLast? = some (9/10) ∧
      m.map Prod.snd = [1, 2] :=
  c2_rate_map_completeness (3/8) (9/10) [1, 2] (by norm_num) (by norm_num)
    (by norm_num) (by norm_num) (by decide)

/-- C3: the Netflix buffer-occupancy lookup on a non-empty sorted bitrate
list and a rate map (whose keys, per the data model, are strictly
increasing): at buffer fraction `φ = occupancy / buffer_size` it returns the
minimum bitrate when `φ ≤ reservoir`, the maximum bitrate when `φ ≥ cushion`,
and otherwise the entry with the largest key strictly less than `φ` (floor
lookup, excluding equality); in particular, on the map built from
`[200000, 400000, 800000, 1600000]` at `φ = 0.6` it returns `400000`. -/
theorem c3_netflix_running_lookup (r c : ℚ) (hrc : r < c)
    (b0 : ℤ) (rest : List ℤ) (_hsorted : List.Sorted (· ≤ ·) (b0 :: rest))
    (occ bs : ℚ) (hbs : 0 < bs)
    (rm : List (ℚ × ℤ)) (hrm : rm ≠ [])
    (hkeys : (rm.map Prod.fst).Pairwise (· < ·)) :
    (occ / bs ≤ r → get_rate_netflix r c (b0 :: rest) occ bs rm = some b0) ∧
    (c ≤ occ / bs → get_rate_netflix r c (b0 :: rest) occ bs rm = some (rest.getLastD b0)) ∧
    (∀ k v, r < occ / bs → occ / bs < c → (k, v) ∈ rm → k < occ / bs →
        (∀ p ∈ rm, p.1 < occ / bs → p.1 ≤ k) →
        get_rate_netflix r c (b0 :: rest) occ bs rm = some v) ∧
    get_rate_netflix (3/8) (9/10) [200000, 400000, 800000, 1600000] 6 10
        ((get_rate_map (3/8) (9/10) [200000, 400000, 800000, 1600000]).getD []) =
      some 400000 := by
  have hbs' : bs ≠ 0 := ne_of_gt hbs
  have hrmE : rm.isEmpty = false := by
    cases rm with
    | nil => exact absurd rfl hrm
    | cons q qs => rfl
  refine ⟨?_, ?_, ?_, ?_⟩
  · intro h
    simp [get_rate_netflix, rate_lookup, hrmE, hbs', h]
  · intro h
    simp [get_rate_netflix, rate_lookup, hrmE, hbs', h,
      not_le.mpr (lt_of_lt_of_le hrc h)]
  · intro k v h1 h2 hmem hk hmax
    have hfind := findRev_eq_max rm hkeys (occ / bs) k v hmem hk hmax
    simp [get_rate_netflix, rate_lookup, hrmE, hbs',
      not_le.mpr h1, not_le.mpr h2, hfind]
  · norm_num [get_rate_map, insertLevels, odInsert, get_rate_netflix,
      rate_lookup, List.find?]

/-- Witness for C3: scenario S2, the lookup at buffer fraction 0.6 on the
map built from the four scenario bitrates. -/
theorem c3_netflix_running_lookup_witness :
    get_rate_netflix (3/8) (9/10) [200000, 400000, 800000, 1600000] 6 10
        ((get_rate_map (3/8) (9/10) [200000, 400000, 800000, 1600000]).getD []) =
      some 400000 :=
  (c3_netflix_running_lookup (3/8) (9/10) (by norm_num) 200000
    [400000, 800000, 1600000] (by decide) 6 10 (by norm_num)
    [(3/8, 200000), (11/20, 400000), (29/40, 800000), (9/10, 1600000)]
    (by simp) (by norm_num)).2.2.2

/-- C5: the INITIAL-state step of `netflix_dash` on a sorted list of positive
bitrates containing `current_bitrate`, with a non-empty rate map.  The buffer
gain is `delta_B = segment_duration - avg_size[curr]/rate` (`0` when the rate
is not positive); the tentative choice steps up exactly one index when
`delta_B > NETFLIX_INITIAL_FACTOR * segment_duration` and the current bitrate
is not maximal; and when `available ≥ NETFLIX_INITIAL_BUFFER` and the
rate-map bitrate at the current buffer fraction exceeds the tentative choice
the result is the rate-map bitrate with state RUNNING, otherwise the
tentative choice with state INITIAL. -/
theorem c5_netflix_initial_step (r c bufSize initialBuffer initialFactor : ℚ)
    (bitrates : List ℤ) (player : DashPlayer) (rate : ℚ) (curr : ℤ)
    (avg : ℤ → ℚ) (rm : List (ℚ × ℤ))
    (hsorted : List.Sorted (· ≤ ·) bitrates) (hpos : ∀ b ∈ bitrates, 0 < b)
    (hcurr : curr ∈ bitrates) (hrm : rm ≠ []) :
    netflix_dash r c bufSize initialBuffer initialFactor bitrates player rate
        curr avg rm (some .INITIAL) =
      (let delta_B : ℚ :=
         if rate > 0 then player.segment_duration - avg curr / rate else 0
       let idx := bitrates.indexOf curr
       let next1 : ℤ :=
         if delta_B > initialFactor * player.segment_duration ∧
             idx < bitrates.length - 1 then
           bitrates.getD (idx + 1) 0
         else curr
       let available : ℤ := max 0 (player.qsize - player.initial_buffer)
       let rmb := (get_rate_netflix r c bitrates (available : ℚ) bufSize rm).getD 0
       if (available : ℚ) ≥ initialBuffer ∧ rmb > next1 then
         some (rmb, rm, some .RUNNING)
       else some (next1, rm, some .INITIAL)) := by
  obtain ⟨b0, rest, rfl⟩ := List.exists_cons_of_ne_nil (List.ne_nil_of_mem hcurr)
  have hsortEq : (b0 :: rest).insertionSort (· ≤ ·) = b0 :: rest :=
    List.Sorted.insertionSort_eq hsorted
  have hcurr0 : curr ≠ 0 := ne_of_gt (hpos curr hcurr)
  have hguard : ¬(curr = 0 ∨ rm = [] ∨ (some NState.INITIAL : Option NState) = none) := by
    simp [hcurr0, hrm]
  rw [netflix_dash, hsortEq]
  simp only [netflix_dash_body]
  rw [if_neg hguard, if_pos trivial, if_neg (not_not_intro hcurr)]
  set avail : ℤ := max 0 (player.qsize - player.initial_buffer) with havail
  obtain ⟨x, hx⟩ : ∃ x,
      get_rate_netflix r c (b0 :: rest) (avail : ℚ) bufSize rm = some x := ⟨_, rfl⟩
  set delta_B : ℚ :=
    if rate > 0 then player.segment_duration - avg curr / rate else 0 with hdB
  set idx := (b0 :: rest).indexOf curr with hidx
  set next1 : ℤ :=
    if delta_B > initialFactor * player.segment_duration ∧
        idx < (b0 :: rest).length - 1 then
      (b0 :: rest).getD (idx + 1) 0
    else curr with hnext1
  have hnext1pos : 0 < next1 := by
    rw [hnext1]
    split
    · next h =>
      have hlt : idx + 1 < (b0 :: rest).length := by
        have := h.2
        omega
      rw [List.getD_eq_getElem _ _ hlt]
      exact hpos _ (List.getElem_mem hlt)
    · exact hpos curr hcurr
  rw [hx]
  simp only [Option.getD_some]
  by_cases hA : (avail : ℚ) ≥ initialBuffer
  · rw [if_pos hA]
    by_cases hB : x > next1
    · rw [if_pos ⟨ne_of_gt (lt_trans hnext1pos hB), hB⟩, if_pos ⟨hA, hB⟩]
    · rw [if_neg (fun h => hB h.2), if_neg (fun h => hB h.2)]
  · rw [if_neg hA, if_neg (fun h => hA h.1)]

/-- Witness for C5 at a concrete input: bitrates `[100, 200]`, current
bitrate 100, download rate 1, average size 2, segment duration 4, available
buffer 5 of initial-buffer threshold 2. -/
theorem c5_netflix_initial_step_witness :
    netflix_dash (3/8) (9/10) 10 2 (7/8) [100, 200] ⟨5, 0, 4⟩ 1 100
        (fun _ => 2) [(3/8, 100), (9/10, 200)] (some .INITIAL) =
      (let delta_B : ℚ := if (1 : ℚ) > 0 then (4 : ℚ) - 2 / 1 else 0
       let idx := [(100 : ℤ), 200].indexOf 100
       let next1 : ℤ :=
         if delta_B > (7/8) * 4 ∧ idx < [(100 : ℤ), 200].length - 1 then
           [(100 : ℤ), 200].getD (idx + 1) 0
         else 100
       let available : ℤ := max 0 (5 - 0)
       let rmb := (get_rate_netflix (3/8) (9/10) [100, 200] (available : ℚ) 10
           [(3/8, 100), (9/10, 200)]).getD 0
       if (available : ℚ) ≥ 2 ∧ rmb > next1 then
         some (rmb, [((3 : ℚ)/8, (100 : ℤ)), (9/10, 200)], some NState.RUNNING)
       else some (next1, [((3 : ℚ)/8, (100 : ℤ)), (9/10, 200)], some NState.INITIAL)) :=
  c5_netflix_initial_step (3/8) (9/10) 10 2 (7/8) [100, 200] ⟨5, 0, 4⟩ 1 100
    (fun _ => 2) [(3/8, 100), (9/10, 200)] (by decide) (by decide)
    (by decide) (by simp)

/-- C8 (amended): building the rate map and looking up at buffer fraction
equal to a key of the map returns the inserted bitrate only at the first key
(`reservoir`) and the last key (`cushion`); at every interior key the floor
lookup, which excludes equality, returns the bitrate inserted at the
immediately preceding key.  Uniformly: the lookup at the `i`-th key returns
the value at index `i` when `i` is the last index, and the value at index
`i - 1` (truncated at 0) otherwise. -/
theorem c8_amended_roundtrip (r c bs : ℚ) (hbs : 0 < bs) (bitrates : List ℤ)
    (hne : bitrates ≠ []) (_hsorted : List.Sorted (· ≤ ·) bitrates)
    (_h0 : 0 < r) (hrc : r < c) (_hc1 : c < 1) (m : List (ℚ × ℤ))
    (hm : get_rate_map r c bitrates = some m) (i : ℕ) (hi : i < m.length) :
    get_rate_netflix r c bitrates ((m.getD i (0, 0)).1 * bs) bs m =
      some (m.getD (if i = m.length - 1 then i else i - 1) (0, 0)).2 := by
  have hbs' : bs ≠ 0 := ne_of_gt hbs
  have hcr : ¬(c ≤ r) := not_le.mpr hrc
  cases bitrates with
  | nil => exact absurd rfl hne
  | cons b0 rest =>
  cases rest with
  | nil =>
    have hm' : m = [(r, b0), (c, b0)] := by
      have hmap : get_rate_map r c [b0] = some [(r, b0), (c, b0)] := by
        simp [get_rate_map, odInsert, ne_of_lt hrc]
      rw [hmap] at hm
      exact (Option.some_inj.mp hm).symm
    subst hm'
    have hi2 : i < 2 := by simpa using hi
    interval_cases i
    · simp [get_rate_netflix, rate_lookup, mul_div_cancel_right₀ _ hbs', hbs']
    · simp [get_rate_netflix, rate_lookup, mul_div_cancel_right₀ _ hbs', hbs', hcr]
  | cons b1 rest1 =>
    have hn : 2 ≤ (b0 :: b1 :: rest1).length := by simp
    have h2 : (2 : ℚ) ≤ ((b0 :: b1 :: rest1).length : ℚ) := by exact_mod_cast hn
    set n := (b0 :: b1 :: rest1).length with hndef
    have hml : 0 < (c - r) / ((n : ℚ) - 1) :=
      div_pos (sub_pos.mpr hrc) (by rw [hndef]; linarith)
    set ml : ℚ := (c - r) / ((n : ℚ) - 1) with hmldef
    set f : ℕ → ℚ := fun j => r + (j : ℚ) * ml with hf
    have hsm : StrictMono f := fun a b hab =>
      add_lt_add_left (mul_lt_mul_of_pos_right (Nat.cast_lt.mpr hab) hml) r
    have hm' : m = ((List.range n).map f).zip (b0 :: b1 :: rest1) := by
      have := get_rate_map_eq r c hrc (b0 :: b1 :: rest1) hn
      rw [hm] at this
      exact Option.some_inj.mp this
    have hlenkeys : ((List.range n).map f).length = n := by simp
    have hmlen : m.length = n := by
      rw [hm', List.length_zip, hlenkeys, ← hndef]
      exact min_self n
    have hgetm : ∀ j (hj : j < n),
        m.get ⟨j, by rw [hmlen]; exact hj⟩ = (f j, (b0 :: b1 :: rest1).get ⟨j, hj⟩) := by
      intro j hj
      simp only [hm', List.get_eq_getElem, List.getElem_zip, List.getElem_map,
        List.getElem_range]
    have hin : i < n := by rw [← hmlen]; exact hi
    have hgd : m.getD i (0, 0) = (f i, (b0 :: b1 :: rest1).get ⟨i, hin⟩) := by
      rw [List.getD_eq_getElem _ _ hi]
      simpa using hgetm i hin
    have hf0 : f 0 = r := by simp [hf]
    have hflast : f (n - 1) = c := by
      have hne1 : ((n : ℚ) - 1) ≠ 0 := by rw [hndef]; linarith
      have hcast : ((n - 1 : ℕ) : ℚ) = (n : ℚ) - 1 := by
        have : 1 ≤ n := by omega
        push_cast [this]
        ring
      rw [hf]
      simp only [hcast, hmldef]
      field_simp
    have hmne : m.isEmpty = false := by
      cases hmm : m with
      | nil => rw [hmm] at hmlen; simp [hndef] at hmlen
      | cons a l => rfl
    have hbp : (f i * bs) / bs = f i := mul_div_cancel_right₀ _ hbs'
    by_cases hi0 : i = 0
    · subst hi0
      have hlast0 : ¬(0 = m.length - 1) := by omega
      rw [hgd, if_neg hlast0]
      simp only [Nat.zero_sub]
      rw [List.getD_eq_getElem _ _ hi]
      have := hgetm 0 hin
      simp only [List.get_eq_getElem] at this
      simp [get_rate_netflix, rate_lookup, hmne, hbs', hbp, hf0, this]
    · by_cases hilast : i = m.length - 1
      · have hieq : i = n - 1 := by omega
        subst hieq
        rw [hgd, if_pos hilast]
        rw [List.getD_eq_getElem _ _ hi]
        have hge := hgetm (n - 1) hin
        simp only [List.get_eq_getElem] at hge
        have hb : n - 1 < (b0 :: b1 :: rest1).length := by
          rw [← hndef]
          omega
        have hlastel : (b1 :: rest1).getLastD b0 =
            (b0 :: b1 :: rest1).get ⟨n - 1, hb⟩ := by
          rw [← List.getLast_eq_getLastD b0 (b1 :: rest1) (List.cons_ne_nil _ _),
            List.getLast_eq_getElem, List.get_eq_getElem]
        have hlastel' : (b1 :: rest1).getLast?.getD b0 =
            (b0 :: b1 :: rest1).get ⟨n - 1, hb⟩ := by
          rw [← List.getLastD_eq_getLast?]
          exact hlastel
        simp [get_rate_netflix, rate_lookup, hmne, hbs', hbp, hge, hflast,
          hcr, hlastel, hlastel']
      · -- interior key
        have hi1 : 1 ≤ i := by omega
        have hiub : i < n - 1 := by omega
        have hkeys : (m.map Prod.fst).Pairwise (· < ·) := by
          rw [hm', List.map_fst_zip _ _ (le_of_eq hlenkeys), List.pairwise_map]
          exact (List.pairwise_lt_range _).imp fun hab => hsm hab
        have hprev : i - 1 < n := by omega
        have hmem : (f (i - 1), (b0 :: b1 :: rest1).get ⟨i - 1, hprev⟩) ∈ m := by
          rw [List.mem_iff_getElem]
          refine ⟨i - 1, by rw [hmlen]; exact hprev, ?_⟩
          have := hgetm (i - 1) hprev
          simpa using this
        have hlt : f (i - 1) < f i := hsm (by omega)
        have hmax : ∀ p ∈ m, p.1 < f i → p.1 ≤ f (i - 1) := by
          intro p hp hpi
          rw [hm', List.mem_iff_getElem] at hp
          obtain ⟨j, hj, hpj⟩ := hp
          have hjn : j < n := by
            rw [List.length_zip, hlenkeys] at hj
            simpa using (lt_min_iff.mp hj).1
          rw [List.getElem_zip] at hpj
          have hp1 : p.1 = f j := by
            rw [← hpj]
            simp
          rw [hp1] at hpi ⊢
          have : j < i := hsm.lt_iff_lt.mp hpi
          exact hsm.monotone (by omega)
        have hfind := findRev_eq_max m hkeys (f i) (f (i - 1))
          ((b0 :: b1 :: rest1).get ⟨i - 1, hprev⟩) hmem hlt hmax
        have hri : r < f i := by rw [← hf0]; exact hsm (by omega)
        have hic : f i < c := by rw [← hflast]; exact hsm (by omega)
        have hlastne : ¬(i = m.length - 1) := hilast
        rw [hgd, if_neg hlastne, List.getD_eq_getElem _ _ (by omega)]
        have hgprev := hgetm (i - 1) hprev
        simp only [List.get_eq_getElem] at hgprev
        simp [get_rate_netflix, rate_lookup, hmne, hbs', hbp, not_le.mpr hri,
          not_le.mpr hic, hfind, hgprev]

/-- Witness for the amended C8 at the scenario map, at interior index 2
(key 0.725): the lookup returns the value inserted at index 1. -/
theorem c8_amended_roundtrip_witness :
    get_rate_netflix (3/8) (9/10) [200000, 400000, 800000, 1600000]
        (([((3 : ℚ)/8, (200000 : ℤ)), (11/20, 400000), (29/40, 800000),
            (9/10, 1600000)].getD 2 (0, 0)).1 * 10) 10
        [((3 : ℚ)/8, (200000 : ℤ)), (11/20, 400000), (29/40, 800000),
          (9/10, 1600000)] =
      some ([((3 : ℚ)/8, (200000 : ℤ)), (11/20, 400000), (29/40, 800000),
          (9/10, 1600000)].getD
        (if 2 = [((3 : ℚ)/8, (200000 : ℤ)), (11/20, 400000), (29/40, 800000),
            (9/10, 1600000)].length - 1 then 2 else 2 - 1) (0, 0)).2 :=
  c8_amended_roundtrip (3/8) (9/10) 10 (by norm_num)
    [200000, 400000, 800000, 1600000] (by decide) (by decide) (by norm_num)
    (by norm_num) (by norm_num)
    [((3 : ℚ)/8, (200000 : ℤ)), (11/20, 400000), (29/40, 800000), (9/10, 1600000)]
    (by norm_num [get_rate_map, insertLevels, odInsert]) 2 (by decide)

/-- C1 (amended): bitrate closure holds once the quantification over rate
maps is restricted to maps whose values are bitrates of the (positive,
sorted, non-empty) list — in particular the maps `netflix_dash` itself
builds: every bitrate returned is an element of the sorted bitrate list. -/
theorem c1_amended_closure (r c bufSize iB fac : ℚ) (bitrates : List ℤ)
    (player : DashPlayer) (rate : ℚ) (curr : ℤ) (avg : ℤ → ℚ)
    (rm : List (ℚ × ℤ)) (st : Option NState)
    (hne : bitrates ≠ []) (hsorted : List.Sorted (· ≤ ·) bitrates)
    (hpos : ∀ b ∈ bitrates, 0 < b) (hvals : ∀ p ∈ rm, p.2 ∈ bitrates) :
    ∃ out, netflix_dash r c bufSize iB fac bitrates player rate curr avg rm st
        = some out ∧ out.1 ∈ bitrates := by
  obtain ⟨b0, rest, rfl⟩ := List.exists_cons_of_ne_nil hne
  rw [netflix_dash, List.Sorted.insertionSort_eq hsorted, netflix_dash_body]
  by_cases hguard : curr = 0 ∨ rm = [] ∨ st = none
  · rw [if_pos hguard]
    exact ⟨_, rfl, List.mem_cons_self b0 rest⟩
  · rw [if_neg hguard]
    set avail : ℤ := max 0 (player.qsize - player.initial_buffer) with havail
    obtain ⟨x, hx, hxmem⟩ :=
      get_rate_netflix_mem r c b0 rest (avail : ℚ) bufSize rm hvals
    by_cases hst : st = some NState.INITIAL
    · rw [if_pos hst]
      by_cases hmem : curr ∈ (b0 :: rest)
      · rw [if_neg (not_not_intro hmem)]
        set dB : ℚ :=
          (if rate > 0 then player.segment_duration - avg curr / rate else 0)
          with hdB
        set nx : ℤ :=
          (if dB > fac * player.segment_duration ∧
              (b0 :: rest).indexOf curr < (b0 :: rest).length - 1 then
            (b0 :: rest).getD ((b0 :: rest).indexOf curr + 1) 0
          else curr) with hnx
        have hnext1 : nx ∈ (b0 :: rest) := by
          rw [hnx]
          by_cases hcond : dB > fac * player.segment_duration ∧
              (b0 :: rest).indexOf curr < (b0 :: rest).length - 1
          · rw [if_pos hcond]
            have hlt : (b0 :: rest).indexOf curr + 1 < (b0 :: rest).length := by
              have := hcond.2
              omega
            rw [List.getD_eq_getElem _ _ hlt]
            exact List.getElem_mem hlt
          · rw [if_neg hcond]
            exact hmem
        by_cases hA : (avail : ℚ) ≥ iB
        · rw [if_pos hA, hx]
          by_cases hB : x ≠ 0 ∧ x > nx
          · refine ⟨(x, rm, some NState.RUNNING), ?_, hxmem⟩
            show (if x ≠ 0 ∧ x > nx then some ((x : ℤ), rm, some NState.RUNNING)
                else some ((nx : ℤ), rm, some NState.INITIAL)) =
              some (x, rm, some NState.RUNNING)
            rw [if_pos hB]
          · refine ⟨(nx, rm, some NState.INITIAL), ?_, hnext1⟩
            show (if x ≠ 0 ∧ x > nx then some ((x : ℤ), rm, some NState.RUNNING)
                else some ((nx : ℤ), rm, some NState.INITIAL)) =
              some (nx, rm, some NState.INITIAL)
            rw [if_neg hB]
        · rw [if_neg hA]
          exact ⟨_, rfl, hnext1⟩
      · rw [if_pos hmem]
        exact ⟨_, rfl, List.mem_cons_self b0 rest⟩
    · rw [if_neg hst, hx]
      have hx0 : x ≠ 0 := ne_of_gt (hpos x hxmem)
      refine ⟨((if x = 0 then curr else x), rm, st), rfl, ?_⟩
      show (if x = 0 then curr else x) ∈ (b0 :: rest)
      rw [if_neg (fun h => hx0 h)]
      exact hxmem

/-- Witness for the amended C1: a RUNNING-state call whose rate map stores
only listed bitrates returns a listed bitrate. -/
theorem c1_amended_closure_witness :
    ∃ out, netflix_dash (3/8) (9/10) 10 2 (7/8) [100, 200] ⟨6, 0, 4⟩ 0 100
        (fun _ => 0) [(1/2, 200)] (some .RUNNING) = some out ∧
      out.1 ∈ [(100 : ℤ), 200] :=
  c1_amended_closure (3/8) (9/10) 10 2 (7/8) [100, 200] ⟨6, 0, 4⟩ 0 100
    (fun _ => 0) [(1/2, 200)] (some .RUNNING) (by decide) (by decide)
    (by decide) (by decide)

/-- C9 (amended): for every non-empty client request, if the stripped
request does not begin with the prefix `CONNECT` the proxy answers 405; if it
begins with `CONNECT` but its line does not parse as exactly
`CONNECT host:port version` with an integral port it answers 400; if it
parses and the upstream connection fails it answers 502; and on upstream
success it sends exactly `HTTP/1.1 200 Connection established` followed by
an empty line and enters the byte relay. -/
theorem c9_amended_connect_replies (data : List Char) (up : Bool) :
    (data ≠ [] → pyStartsWith (pyStrip data) "CONNECT".data = false →
      handle_client data up =
        (some "HTTP/1.1 405 Method Not Allowed\r\n\r\n".data, false)) ∧
    (data ≠ [] → pyStartsWith (pyStrip data) "CONNECT".data = true →
      parseConnect (pyStrip data) = none →
      handle_client data up =
        (some "HTTP/1.1 400 Bad Request\r\n\r\n".data, false)) ∧
    (∀ hp, data ≠ [] → pyStartsWith (pyStrip data) "CONNECT".data = true →
      parseConnect (pyStrip data) = some hp → up = false →
      handle_client data up =
        (some "HTTP/1.1 502 Bad Gateway\r\n\r\n".data, false)) ∧
    (∀ hp, data ≠ [] → pyStartsWith (pyStrip data) "CONNECT".data = true →
      parseConnect (pyStrip data) = some hp → up = true →
      handle_client data up =
        (some "HTTP/1.1 200 Connection established\r\n\r\n".data, true)) := by
  refine ⟨?_, ?_, ?_, ?_⟩
  · intro hne hstart
    simp [handle_client, hne, hstart]
  · intro hne hstart hparse
    simp [handle_client, hne, hstart, hparse]
  · intro hp hne hstart hparse hup
    simp [handle_client, hne, hstart, hparse, hup]
  · intro hp hne hstart hparse hup
    simp [handle_client, hne, hstart, hparse, hup]

/-- Witness for the amended C9: a GET request is answered 405, a CONNECT
with a non-integral port is answered 400, and a well-formed CONNECT is
answered 502 or 200 according to the upstream outcome. -/
theorem c9_amended_connect_replies_witness :
    handle_client "GET / HTTP/1.1".data true =
      (some "HTTP/1.1 405 Method Not Allowed\r\n\r\n".data, false) ∧
    handle_client "CONNECT host:x HTTP/1.1".data true =
      (some "HTTP/1.1 400 Bad Request\r\n\r\n".data, false) ∧
    handle_client "CONNECT example.com:443 HTTP/1.1".data false =
      (some "HTTP/1.1 502 Bad Gateway\r\n\r\n".data, false) ∧
    handle_client "CONNECT example.com:443 HTTP/1.1".data true =
      (some "HTTP/1.1 200 Connection established\r\n\r\n".data, true) :=
  ⟨(c9_amended_connect_replies "GET / HTTP/1.1".data true).1
      (by decide) (by decide),
    (c9_amended_connect_replies "CONNECT host:x HTTP/1.1".data true).2.1
      (by decide) (by decide) (by decide),
    (c9_amended_connect_replies "CONNECT example.com:443 HTTP/1.1".data false).2.2.1
      ("example.com".data, 443) (by decide) (by decide) (by decide) rfl,
    (c9_amended_connect_replies "CONNECT example.com:443 HTTP/1.1".data true).2.2.2
      ("example.com".data, 443) (by decide) (by decide) (by decide) rfl⟩

/-- C10: calling `get_rate_netflix` with `buffer_size = 0` (the falsy value
of the numeric type) returns the minimum bitrate `bitrates[0]` for every
non-empty bitrate list and every buffer occupancy, and no division is
performed: the truthiness guard sets the buffer percentage to `0`, which is
at or below the (non-negative) reservoir. -/
theorem c10_zero_buffer_guard (r c : ℚ) (h0 : 0 ≤ r) (b0 : ℤ) (rest : List ℤ)
    (occ : ℚ) (rm : List (ℚ × ℤ)) :
    get_rate_netflix r c (b0 :: rest) occ 0 rm = some b0 := by
  simp [get_rate_netflix, rate_lookup, h0]

/-- Witness for C10 at a concrete input. -/
theorem c10_zero_buffer_guard_witness :
    get_rate_netflix (3/8) (9/10) [5, 7] 3 0 [] = some 5 :=
  c10_zero_buffer_guard (3/8) (9/10) (by norm_num) 5 [7] 3 []

end AStream
